import Mathlib

/-!
# Verification of the birthday-paradox squad analyzer

A shallow embedding of `src/BirthdayParadoxAnalyzer.py`.  The analyzer reads a
flat table of player rows (columns `src_page`, `#`, `DOB`, `PLAYER NAME`),
filters rows whose roster number `#` lies in `[1, 23]`, groups them by
`src_page`, sorts each group by `#`, truncates to 23, drops short groups, and
counts how many of the surviving squads contain a repeated month-day birthday.
It compares that observed frequency with the classical birthday-paradox
closed form.

Python `float` arithmetic is modelled exactly over `ℚ`: the embedded
definitions mirror the source expressions term for term, with real-number
semantics.  Library behaviour of pandas is modelled at the level of its
documented contract: `pd.to_numeric(..., errors="coerce")` and the date parse
turn a malformed field into an absent value (`Option.none` here), `NaN`
fails every `≥`/`≤`/`==` comparison, `groupby` iterates groups in ascending
key order keeping the original row order inside each group, and
`value_counts()` drops absent values.
-/

namespace BirthdayParadox

/-- One row of the analyzer's dataframe after `_preprocess`:
`srcPage` is the `src_page` group key (a page number), `num` is
`pd.to_numeric(df["#"], errors="coerce")` (`none` for a missing or
non-numeric roster number), `birthdayMD` is the `"%m-%d"` rendering of the
parsed `DOB` (`none` when `pd.to_datetime(..., errors="coerce")` failed),
and `name` is the `PLAYER NAME` column. -/
structure Row where
  srcPage : ℕ
  num : Option ℚ
  birthdayMD : Option String
  name : String
deriving DecidableEq, Repr

/-- `self.squad_size`, set to 23 in `__init__`. -/
def squad_size : ℕ := 23

/-- `prob_no_match` after `n` iterations of the loop in
`calculate_theoretical_probability`: starts at `1.0`, and iteration `i`
multiplies by `(365 - i) / 365`. -/
def prob_no_match : ℕ → ℚ
  | 0 => 1
  | n + 1 => prob_no_match n * (((365 : ℚ) - (n : ℚ)) / 365)

/-- `BirthdayParadoxAnalyzer.calculate_theoretical_probability(n)`:
`1 - prob_no_match` after the loop `for i in range(n)`. -/
def calculate_theoretical_probability (n : ℕ) : ℚ :=
  1 - prob_no_match n

/-- The loop accumulator is the partial product of the factors `(365 - i)/365`. -/
lemma prob_no_match_eq_prod (n : ℕ) :
    prob_no_match n = Finset.prod (Finset.range n) (fun i => ((365 : ℚ) - (i : ℚ)) / 365) := by
  induction n with
  | zero => simp [prob_no_match]
  | succ n ih => rw [prob_no_match, ih, Finset.prod_range_succ]

/-- Once the factor for `i = 365` (which is `0`) has been multiplied in, the
accumulator stays `0` forever. -/
lemma prob_no_match_eq_zero {n : ℕ} (h : 366 ≤ n) : prob_no_match n = 0 := by
  induction n with
  | zero => omega
  | succ n ih =>
    rcases Nat.lt_or_ge n 366 with hn | hn
    · have hn365 : n = 365 := by omega
      subst hn365
      rw [prob_no_match]
      norm_num
    · rw [prob_no_match, ih hn]
      ring

/-- Up to `n = 365` every factor lies in `[0, 1]`, so the partial product does too. -/
lemma prob_no_match_bounds : ∀ n : ℕ, n ≤ 365 → 0 ≤ prob_no_match n ∧ prob_no_match n ≤ 1 := by
  intro n
  induction n with
  | zero => intro _; simp [prob_no_match]
  | succ n ih =>
    intro hn
    obtain ⟨h0, h1⟩ := ih (by omega)
    have hcast : (n : ℚ) ≤ 364 := by
      exact_mod_cast Nat.le_of_lt_succ (by omega)
    have hf0 : 0 ≤ ((365 : ℚ) - (n : ℚ)) / 365 := by
      apply div_nonneg _ (by norm_num)
      linarith
    have hf1 : ((365 : ℚ) - (n : ℚ)) / 365 ≤ 1 := by
      rw [div_le_one (by norm_num : (0:ℚ) < 365)]
      have : (0 : ℚ) ≤ (n : ℚ) := Nat.cast_nonneg n
      linarith
    rw [prob_no_match]
    constructor
    · exact mul_nonneg h0 hf0
    · exact mul_le_one₀ h1 hf0 hf1

lemma prob_no_match_nonneg (n : ℕ) : 0 ≤ prob_no_match n := by
  rcases le_or_lt n 365 with h | h
  · exact (prob_no_match_bounds n h).1
  · rw [prob_no_match_eq_zero (by omega)]

lemma prob_no_match_le_one (n : ℕ) : prob_no_match n ≤ 1 := by
  rcases le_or_lt n 365 with h | h
  · exact (prob_no_match_bounds n h).2
  · rw [prob_no_match_eq_zero (by omega)]
    norm_num

/-- Each loop iteration multiplies by a factor `≤ 1`, so the accumulator never grows. -/
lemma prob_no_match_succ_le (n : ℕ) : prob_no_match (n + 1) ≤ prob_no_match n := by
  rw [prob_no_match]
  apply mul_le_of_le_one_right (prob_no_match_nonneg n)
  rw [div_le_one (by norm_num : (0:ℚ) < 365)]
  have : (0 : ℚ) ≤ (n : ℚ) := Nat.cast_nonneg n
  linarith

lemma prob_no_match_antitone : Antitone prob_no_match :=
  antitone_nat_of_succ_le prob_no_match_succ_le

/-- The row filter `(df["#"] >= 1) & (df["#"] <= 23)` from `run_analysis`.
A missing or non-numeric `#` was coerced to `NaN` by `_preprocess`, and `NaN`
fails both comparisons. -/
def qualifies (r : Row) : Bool :=
  match r.num with
  | none => false
  | some q => decide (1 ≤ q) && decide (q ≤ 23)

/-- Ascending insertion of a group key. -/
def insertKey (a : ℕ) : List ℕ → List ℕ
  | [] => [a]
  | b :: l => if a ≤ b then a :: b :: l else b :: insertKey a l

/-- Ascending insertion sort of group keys. -/
def sortKeys : List ℕ → List ℕ
  | [] => []
  | a :: l => insertKey a (sortKeys l)

/-- The distinct `src_page` values of the filtered table, in the iteration
order of `players.groupby("src_page")` (default `sort=True`: ascending keys). -/
def groupKeys (players : List Row) : List ℕ :=
  sortKeys (players.map Row.srcPage).dedup

/-- Sort key of `sort_values("#")`.  After the `[1, 23]` filter every row's
`#` is numeric; pandas would place a `NaN` last, which is unreachable here. -/
def numKey (r : Row) : ℚ :=
  r.num.getD 0

/-- Insertion of a row into a list sorted by `numKey`. -/
def insertRow (a : Row) : List Row → List Row
  | [] => [a]
  | b :: l => if numKey a ≤ numKey b then a :: b :: l else b :: insertRow a l

/-- `sort_values("#")` on a group: ascending by roster number.  (pandas'
default `kind="quicksort"` fixes only the ascending key order; this model in
addition keeps rows with equal keys in their input order.) -/
def sortByNum : List Row → List Row
  | [] => []
  | a :: l => insertRow a (sortByNum l)

/-- `squad_data.sort_values("#").head(self.squad_size)` for the group `k`:
the group's filtered rows (kept in input order by `groupby`), sorted by `#`,
truncated to the first `squad_size`. -/
def squadPlayers (players : List Row) (k : ℕ) : List Row :=
  (sortByNum (players.filter (fun r => r.srcPage == k))).take squad_size

/-- `squad_players["birthday_md"].value_counts()[md]`: how many squad members
have the (parseable) birthday key `md`.  `value_counts` drops the `NaN`
entries of members whose `DOB` failed to parse. -/
def countMD (squad : List Row) (md : String) : ℕ :=
  (squad.filter (fun r => r.birthdayMD == some md)).length

/-- `bday_counts[bday_counts > 1].index.tolist()`: the distinct birthday keys
occurring more than once in the squad.  (`value_counts` orders its index by
descending frequency; the analysis only ever tests this list for emptiness
and iterates it, so this model keeps first-appearance order.) -/
def shared_bdays (squad : List Row) : List String :=
  ((squad.filterMap Row.birthdayMD).dedup).filter (fun md => decide (1 < countMD squad md))

/-- `squad_players[squad_players["birthday_md"] == bday]`: the members whose
birthday key equals `bday`, in sorted-squad order.  A member with an absent
birthday compares unequal to every key (`NaN == bday` is `False`). -/
def matching_players (squad : List Row) (bday : String) : List Row :=
  squad.filter (fun r => r.birthdayMD == some bday)

/-- One iteration of the `for squad_id, squad_data in squads:` loop, acting on
the accumulator `(total_squads, squads_with_matches)`: a truncated group still
shorter than `squad_size` is skipped via `continue`; otherwise `total_squads`
is incremented, and `squads_with_matches` as well when `shared_bdays` is
non-empty. -/
def loopStep (players : List Row) (acc : ℕ × ℕ) (k : ℕ) : ℕ × ℕ :=
  let sp := squadPlayers players k
  if sp.length < squad_size then acc
  else (acc.1 + 1, if shared_bdays sp ≠ [] then acc.2 + 1 else acc.2)

/-- `(total_squads, squads_with_matches)` after running the loop over the
given group keys. -/
def loopCounts (players : List Row) (keys : List ℕ) : ℕ × ℕ :=
  keys.foldl (loopStep players) (0, 0)

/-- The aggregate values `run_analysis` computes and hands to `print_summary`. -/
structure AnalysisResult where
  total_squads : ℕ
  squads_with_matches : ℕ
  observed_prob : ℚ
  theory_prob : ℚ
deriving Repr

/-- `BirthdayParadoxAnalyzer.run_analysis`: filter roster numbers to `[1, 23]`,
group by `src_page`, count eligible squads and squads with a shared birthday,
then compute the observed percentage (`0` when no squad qualifies) and the
theoretical percentage for `n = 23`. -/
def run_analysis (rows : List Row) : AnalysisResult :=
  let players := rows.filter qualifies
  let counts := loopCounts players (groupKeys players)
  { total_squads := counts.1
    squads_with_matches := counts.2
    observed_prob :=
      if 0 < counts.1 then ((counts.2 : ℚ) / (counts.1 : ℚ)) * 100 else 0
    theory_prob := calculate_theoretical_probability 23 * 100 }

/-- The conclusion string chosen in `print_summary` when the difference is
below the 5-percentage-point threshold. -/
def aligned_msg : String := "Data aligns closely."

/-- The conclusion string chosen in `print_summary` otherwise. -/
def deviation_msg : String := "Notable deviation due to small sample size."

/-- The verdict computed by `print_summary` from the observed and theoretical
percentages: `diff = abs(observed - theory)`, aligned iff `diff < 5`. -/
def conclusion (observed theory : ℚ) : String :=
  if |observed - theory| < 5 then aligned_msg else deviation_msg

/-- The qualifying rows of group `k`: rows surviving the `[1, 23]` roster
filter whose `src_page` equals `k`, in input order. -/
def qualGroup (rows : List Row) (k : ℕ) : List Row :=
  (rows.filter qualifies).filter (fun r => r.srcPage == k)

/-- The squads the loop actually analyzes, keyed by `src_page`: per group key,
the sorted-and-truncated member list, kept only when it still has
`squad_size` rows. -/
def analyzedSquads (rows : List Row) : List (ℕ × List Row) :=
  let players := rows.filter qualifies
  (groupKeys players).filterMap (fun k =>
    let sp := squadPlayers players k
    if sp.length < squad_size then none else some (k, sp))

lemma length_insertRow (a : Row) (l : List Row) : (insertRow a l).length = l.length + 1 := by
  induction l with
  | nil => rfl
  | cons b l ih =>
    rw [insertRow]
    split_ifs <;> simp [ih]

lemma length_sortByNum (l : List Row) : (sortByNum l).length = l.length := by
  induction l with
  | nil => rfl
  | cons a l ih => rw [sortByNum, length_insertRow, ih, List.length_cons]

/-- `head(squad_size)` caps the squad length at `squad_size`; sorting keeps it. -/
lemma length_squadPlayers (players : List Row) (k : ℕ) :
    (squadPlayers players k).length
      = min squad_size (players.filter (fun r => r.srcPage == k)).length := by
  rw [squadPlayers, List.length_take, length_sortByNum]

/-- The first component of the loop accumulator counts the keys whose
truncated group reaches `squad_size`. -/
lemma loopCounts_fst (players : List Row) : ∀ (keys : List ℕ) (a b : ℕ),
    (keys.foldl (loopStep players) (a, b)).1
      = a + keys.countP (fun k => decide (squad_size ≤ (squadPlayers players k).length)) := by
  intro keys
  induction keys with
  | nil => intro a b; simp
  | cons k keys ih =>
    intro a b
    rw [List.foldl_cons, List.countP_cons]
    by_cases h : (squadPlayers players k).length < squad_size
    · have hd : decide (squad_size ≤ (squadPlayers players k).length) = false := by
        simp; omega
      simp only [loopStep, if_pos h, hd]
      rw [ih]
      simp
    · have hd : decide (squad_size ≤ (squadPlayers players k).length) = true := by
        simp; omega
      simp only [loopStep, if_neg h, hd]
      rw [ih]
      simp
      omega

/-- The loop preserves `squads_with_matches ≤ total_squads`. -/
lemma loopCounts_snd_le_fst (players : List Row) : ∀ (keys : List ℕ) (a b : ℕ), b ≤ a →
    (keys.foldl (loopStep players) (a, b)).2 ≤ (keys.foldl (loopStep players) (a, b)).1 := by
  intro keys
  induction keys with
  | nil => intro a b hba; simpa using hba
  | cons k keys ih =>
    intro a b hba
    rw [List.foldl_cons]
    by_cases h : (squadPlayers players k).length < squad_size
    · simp only [loopStep, if_pos h]
      exact ih a b hba
    · by_cases hs : shared_bdays (squadPlayers players k) ≠ []
      · simp only [loopStep, if_neg h, if_pos hs]
        exact ih (a + 1) (b + 1) (by omega)
      · simp only [loopStep, if_neg h, if_neg hs]
        exact ih (a + 1) b (by omega)

/-- Membership in the analyzed-squad list: the key appears among the group
keys, its truncated group reaches `squad_size`, and the squad is that
truncated group. -/
lemma mem_analyzedSquads {rows : List Row} {k : ℕ} {sq : List Row} :
    (k, sq) ∈ analyzedSquads rows ↔
      k ∈ groupKeys (rows.filter qualifies)
        ∧ squad_size ≤ (squadPlayers (rows.filter qualifies) k).length
        ∧ sq = squadPlayers (rows.filter qualifies) k := by
  rw [analyzedSquads, List.mem_filterMap]
  constructor
  · rintro ⟨k', hk', heq⟩
    by_cases h : (squadPlayers (rows.filter qualifies) k').length < squad_size
    · simp [h] at heq
    · simp only [if_neg h, Option.some.injEq, Prod.mk.injEq] at heq
      obtain ⟨hk, hsq⟩ := heq
      subst hk
      exact ⟨hk', by omega, hsq.symm⟩
  · rintro ⟨hk, hle, hsq⟩
    refine ⟨k, hk, ?_⟩
    rw [if_neg (by omega), hsq]

lemma analyzedSquads_map_fst (rows : List Row) :
    (analyzedSquads rows).map Prod.fst
      = (groupKeys (rows.filter qualifies)).filter
          (fun k => decide (squad_size ≤ (squadPlayers (rows.filter qualifies) k).length)) := by
  rw [analyzedSquads]
  induction groupKeys (rows.filter qualifies) with
  | nil => rfl
  | cons k keys ih =>
    rw [List.filterMap_cons, List.filter_cons]
    by_cases h : (squadPlayers (rows.filter qualifies) k).length < squad_size
    · have hd : decide (squad_size ≤ (squadPlayers (rows.filter qualifies) k).length) = false := by
        simp; omega
      simp only [if_pos h, hd]
      simpa using ih
    · have hd : decide (squad_size ≤ (squadPlayers (rows.filter qualifies) k).length) = true := by
        simp; omega
      simp only [if_neg h, hd]
      simpa using ih

lemma analyzedSquads_length (rows : List Row) :
    (analyzedSquads rows).length
      = (groupKeys (rows.filter qualifies)).countP
          (fun k => decide (squad_size ≤ (squadPlayers (rows.filter qualifies) k).length)) := by
  have h := congrArg List.length (analyzedSquads_map_fst rows)
  rw [List.length_map] at h
  rw [h, ← List.countP_eq_length_filter]

/-- `total_squads` is the number of analyzed squads. -/
lemma total_squads_eq (rows : List Row) :
    (run_analysis rows).total_squads = (analyzedSquads rows).length := by
  simp only [run_analysis, loopCounts]
  rw [loopCounts_fst, analyzedSquads_length]
  simp

/-- Rewrite the birthday field of a row, leaving the fields the grouping
stage reads (`src_page`, `#`) untouched. -/
def setBirthday (f : Row → Option String) (r : Row) : Row :=
  { r with birthdayMD := f r }

lemma filter_qualifies_map (rows : List Row) (f : Row → Option String) :
    (rows.map (setBirthday f)).filter qualifies
      = (rows.filter qualifies).map (setBirthday f) := by
  rw [List.filter_map]
  rfl

lemma groupKeys_map (players : List Row) (f : Row → Option String) :
    groupKeys (players.map (setBirthday f)) = groupKeys players := by
  rw [groupKeys, groupKeys, List.map_map]
  rfl

lemma numKey_setBirthday (f : Row → Option String) (r : Row) :
    numKey (setBirthday f r) = numKey r := rfl

lemma insertRow_map (f : Row → Option String) (a : Row) (l : List Row) :
    insertRow (setBirthday f a) (l.map (setBirthday f)) = (insertRow a l).map (setBirthday f) := by
  induction l with
  | nil => rfl
  | cons b l ih =>
    rw [List.map_cons, insertRow, insertRow]
    simp only [numKey_setBirthday]
    by_cases h : numKey a ≤ numKey b
    · rw [if_pos h, if_pos h, List.map_cons, List.map_cons]
    · rw [if_neg h, if_neg h, List.map_cons, ih]

lemma sortByNum_map (f : Row → Option String) (l : List Row) :
    sortByNum (l.map (setBirthday f)) = (sortByNum l).map (setBirthday f) := by
  induction l with
  | nil => rfl
  | cons a l ih => rw [List.map_cons, sortByNum, sortByNum, ih, insertRow_map]

lemma squadPlayers_map (players : List Row) (f : Row → Option String) (k : ℕ) :
    squadPlayers (players.map (setBirthday f)) k = (squadPlayers players k).map (setBirthday f) := by
  rw [squadPlayers, squadPlayers]
  have h1 : (players.map (setBirthday f)).filter (fun r => r.srcPage == k)
      = (players.filter (fun r => r.srcPage == k)).map (setBirthday f) := by
    rw [List.filter_map]
    rfl
  rw [h1, sortByNum_map, List.map_take]

/-- Rewriting birthday fields changes no group key, no eligibility decision
and no squad membership: the analyzed squads are the same squads with the
same members, each with its birthday rewritten. -/
lemma analyzedSquads_map (rows : List Row) (f : Row → Option String) :
    analyzedSquads (rows.map (setBirthday f))
      = (analyzedSquads rows).map (fun p => (p.1, p.2.map (setBirthday f))) := by
  simp only [analyzedSquads]
  rw [filter_qualifies_map, groupKeys_map, List.map_filterMap]
  congr 1
  funext k
  rw [squadPlayers_map]
  by_cases h : (squadPlayers (rows.filter qualifies) k).length < squad_size
  · rw [if_pos (by simpa using h), if_pos h]
    rfl
  · rw [if_neg (by simpa using h), if_neg h]
    rfl

/-- Eligibility and the squad count ignore the birthday column entirely. -/
lemma run_analysis_total_map (rows : List Row) (f : Row → Option String) :
    (run_analysis (rows.map (setBirthday f))).total_squads
      = (run_analysis rows).total_squads := by
  rw [total_squads_eq, total_squads_eq, analyzedSquads_map, List.length_map]

/-- A key reported as shared really occurs at least twice among members whose
birthday parsed to it. -/
lemma shared_bdays_two_le (squad : List Row) (md : String) (h : md ∈ shared_bdays squad) :
    2 ≤ countMD squad md := by
  rw [shared_bdays, List.mem_filter] at h
  have := of_decide_eq_true h.2
  omega

end BirthdayParadox

namespace BirthdayParadox

/-- C2: `calculate_theoretical_probability(n)` is `1` minus the product over
`i = 0 .. n−1` of `(365 − i)/365`, the classical birthday-paradox closed form
for the probability of at least one collision among `n` people. -/
theorem theoretical_probability_closed_form (n : ℕ) :
    calculate_theoretical_probability n =
      1 - Finset.prod (Finset.range n) (fun i => ((365 : ℚ) - (i : ℚ)) / 365) := by
  rw [calculate_theoretical_probability, prob_no_match_eq_prod]

/-- C5: `calculate_theoretical_probability(23)` is within `±0.0005` of the
canonical regression value `0.5073`. -/
theorem theoretical_probability_23_near_half :
    |calculate_theoretical_probability 23 - 5073 / 10000| ≤ 5 / 10000 := by
  norm_num [calculate_theoretical_probability, prob_no_match, abs_le]

/-- C7: for every `n`, `calculate_theoretical_probability(n)` lies in `[0, 1]`,
is monotonically increasing in `n`, and equals `0` at `n = 0`. -/
theorem theoretical_probability_bounds_monotone_zero :
    (∀ n : ℕ, 0 ≤ calculate_theoretical_probability n ∧ calculate_theoretical_probability n ≤ 1)
    ∧ (∀ m n : ℕ, m ≤ n →
        calculate_theoretical_probability m ≤ calculate_theoretical_probability n)
    ∧ calculate_theoretical_probability 0 = 0 := by
  refine ⟨fun n => ⟨?_, ?_⟩, fun m n h => ?_, ?_⟩
  · rw [calculate_theoretical_probability]
    have := prob_no_match_le_one n
    linarith
  · rw [calculate_theoretical_probability]
    have := prob_no_match_nonneg n
    linarith
  · rw [calculate_theoretical_probability, calculate_theoretical_probability]
    have := prob_no_match_antitone h
    linarith
  · rw [calculate_theoretical_probability, prob_no_match]
    ring

/-- Witness for C7: the monotonicity clause applied at `2 ≤ 5`. -/
theorem theoretical_probability_bounds_monotone_zero_witness :
    calculate_theoretical_probability 2 ≤ calculate_theoretical_probability 5 :=
  theoretical_probability_bounds_monotone_zero.2.1 2 5 (by norm_num)

/-- C8: for `n ≥ 366` the `i = 365` factor is `0`, so the no-collision product
is `0` and the theoretical probability is exactly `1`. -/
theorem theoretical_probability_saturates (n : ℕ) (h : 366 ≤ n) :
    calculate_theoretical_probability n = 1 := by
  rw [calculate_theoretical_probability, prob_no_match_eq_zero h]
  ring

/-- Witness for C8 at `n = 366`. -/
theorem theoretical_probability_saturates_witness :
    calculate_theoretical_probability 366 = 1 :=
  theoretical_probability_saturates 366 (by norm_num)

/-- C1: the analyzed squads are exactly the `src_page` groups with at least
`squad_size` qualifying rows (roster number present, numeric and in
`[1, squad_size]`); each analyzed squad is the first `squad_size` of its
group's qualifying rows after sorting by roster number; a group with fewer
qualifying rows yields no squad and is not counted in `total_squads`. -/
theorem analyzed_squads_are_full_groups (rows : List Row) :
    (∀ r : Row, qualifies r = true ↔ ∃ q : ℚ, r.num = some q ∧ 1 ≤ q ∧ q ≤ 23)
    ∧ ((analyzedSquads rows).map Prod.fst
        = (groupKeys (rows.filter qualifies)).filter
            (fun k => decide (squad_size ≤ (qualGroup rows k).length)))
    ∧ (∀ k sq, (k, sq) ∈ analyzedSquads rows →
        sq = (sortByNum (qualGroup rows k)).take squad_size)
    ∧ (∀ k, (qualGroup rows k).length < squad_size →
        ∀ sq, (k, sq) ∉ analyzedSquads rows)
    ∧ (run_analysis rows).total_squads = (analyzedSquads rows).length := by
  refine ⟨?_, ?_, ?_, ?_, total_squads_eq rows⟩
  · intro r
    cases hr : r.num with
    | none => simp [qualifies, hr]
    | some q => simp [qualifies, hr]
  · rw [analyzedSquads_map_fst]
    apply List.filter_congr
    intro k _
    have hlen := length_squadPlayers (rows.filter qualifies) k
    apply decide_eq_decide.mpr
    rw [hlen]
    simp only [qualGroup]
    omega
  · intro k sq hmem
    exact (mem_analyzedSquads.mp hmem).2.2
  · intro k hlt sq hmem
    have h2 := (mem_analyzedSquads.mp hmem).2.1
    rw [length_squadPlayers] at h2
    simp only [qualGroup] at hlt
    omega

/-- A group of 22 qualifying rows on page 9: one short of `squad_size`. -/
def shortRows : List Row :=
  List.replicate 22 { srcPage := 9, num := some 1, birthdayMD := some "01-01", name := "p" }

/-- Witness for C1: a group with `squad_size − 1` qualifying rows produces no
squad. -/
theorem analyzed_squads_are_full_groups_witness :
    (9, ([] : List Row)) ∉ analyzedSquads shortRows :=
  (analyzed_squads_are_full_groups shortRows).2.2.2.1 9 (by decide) []

/-- C4: the observed probability is `squads_with_matches / total_squads × 100`
when `total_squads > 0` and `0` when `total_squads = 0`, and the theoretical
probability is computed (for `n = 23`) in every case. -/
theorem observed_probability_formula (rows : List Row) :
    (0 < (run_analysis rows).total_squads →
      (run_analysis rows).observed_prob
        = ((run_analysis rows).squads_with_matches : ℚ)
            / ((run_analysis rows).total_squads : ℚ) * 100)
    ∧ ((run_analysis rows).total_squads = 0 → (run_analysis rows).observed_prob = 0)
    ∧ (run_analysis rows).theory_prob = calculate_theoretical_probability 23 * 100 := by
  simp only [run_analysis]
  refine ⟨fun h => ?_, fun h => ?_, trivial⟩
  · rw [if_pos h]
  · rw [if_neg (by omega)]

/-- Witness for C4: an empty table yields zero squads and a zero observed
probability without a division error. -/
theorem observed_probability_formula_witness :
    (run_analysis []).observed_prob = 0 :=
  (observed_probability_formula []).2.1 (by decide)

/-- C6: `print_summary` concludes with the aligned sentence exactly when
`diff = abs(observed − theory) < 5` percentage points; at `diff = 5` exactly
the small-sample-deviation sentence is chosen. -/
theorem conclusion_threshold (observed theory : ℚ) :
    (conclusion observed theory = aligned_msg ↔ |observed - theory| < 5)
    ∧ (|observed - theory| = 5 → conclusion observed theory = deviation_msg) := by
  constructor
  · constructor
    · intro h
      by_contra hge
      rw [conclusion, if_neg hge] at h
      exact absurd h (by decide)
    · intro h
      rw [conclusion, if_pos h]
  · intro h
    rw [conclusion, if_neg (by rw [h]; norm_num)]

/-- Witness for C6: at a difference of exactly 5 percentage points the
deviation sentence is chosen. -/
theorem conclusion_threshold_witness :
    conclusion 10 5 = deviation_msg :=
  (conclusion_threshold 10 5).2 (by norm_num)

/-- The loop state `(total_squads, squads_with_matches)` after the first `k`
group keys have been processed. -/
def countsAfter (rows : List Row) (k : ℕ) : ℕ × ℕ :=
  loopCounts (rows.filter qualifies) ((groupKeys (rows.filter qualifies)).take k)

/-- C10: at every point of the loop `squads_with_matches ≤ total_squads`, so
in particular at the end, and the observed probability lies in `[0, 100]`. -/
theorem matches_le_total_invariant (rows : List Row) :
    (∀ k : ℕ, (countsAfter rows k).2 ≤ (countsAfter rows k).1)
    ∧ (run_analysis rows).squads_with_matches ≤ (run_analysis rows).total_squads
    ∧ 0 ≤ (run_analysis rows).observed_prob
    ∧ (run_analysis rows).observed_prob ≤ 100 := by
  have hfin : ∀ keys : List ℕ,
      (loopCounts (rows.filter qualifies) keys).2 ≤ (loopCounts (rows.filter qualifies) keys).1 :=
    fun keys => loopCounts_snd_le_fst (rows.filter qualifies) keys 0 0 (le_refl 0)
  refine ⟨fun k => hfin _, hfin _, ?_, ?_⟩
  · simp only [run_analysis]
    by_cases h : 0 < (loopCounts (rows.filter qualifies)
        (groupKeys (rows.filter qualifies))).1
    · rw [if_pos h]
      positivity
    · rw [if_neg h]
  · simp only [run_analysis]
    by_cases h : 0 < (loopCounts (rows.filter qualifies)
        (groupKeys (rows.filter qualifies))).1
    · rw [if_pos h]
      have hmt := hfin (groupKeys (rows.filter qualifies))
      have hcast : ((loopCounts (rows.filter qualifies)
            (groupKeys (rows.filter qualifies))).2 : ℚ)
          ≤ ((loopCounts (rows.filter qualifies)
            (groupKeys (rows.filter qualifies))).1 : ℚ) := by
        exact_mod_cast hmt
      have ht : (0 : ℚ) < ((loopCounts (rows.filter qualifies)
          (groupKeys (rows.filter qualifies))).1 : ℚ) := by
        exact_mod_cast h
      rw [div_mul_eq_mul_div, div_le_iff₀ ht]
      linarith
    · rw [if_neg h]
      norm_num

/-- C3: members whose date of birth did not parse carry an absent birthday
key: the frequency count ignores them, they never appear among the matching
players of any shared birthday, a squad counts as having a match only when
some parsed key occurs at least twice — yet rewriting birthday fields (in
particular erasing them) changes neither the analyzed squads' members nor
`total_squads`. -/
theorem unparseable_birthdays_excluded (squad : List Row) (rows : List Row)
    (f : Row → Option String) :
    (∀ md, countMD squad md
        = countMD (squad.filter (fun r => !(r.birthdayMD == none))) md)
    ∧ (∀ md r, r ∈ matching_players squad md → r.birthdayMD = some md)
    ∧ (∀ md, md ∈ shared_bdays squad → 2 ≤ countMD squad md)
    ∧ (shared_bdays squad ≠ [] ↔ ∃ md, 2 ≤ countMD squad md)
    ∧ analyzedSquads (rows.map (setBirthday f))
        = (analyzedSquads rows).map (fun p => (p.1, p.2.map (setBirthday f)))
    ∧ (run_analysis (rows.map (setBirthday f))).total_squads
        = (run_analysis rows).total_squads := by
  refine ⟨?_, ?_, fun md h => shared_bdays_two_le squad md h, ⟨?_, ?_⟩,
    analyzedSquads_map rows f, run_analysis_total_map rows f⟩
  · intro md
    rw [countMD, countMD, List.filter_filter]
    congr 1
    apply List.filter_congr
    intro r _
    cases r.birthdayMD <;> simp
  · intro md r hr
    rw [matching_players, List.mem_filter] at hr
    exact eq_of_beq hr.2
  · intro hne
    obtain ⟨md, hmd⟩ := List.exists_mem_of_ne_nil _ hne
    exact ⟨md, shared_bdays_two_le squad md hmd⟩
  · rintro ⟨md, hmd⟩
    apply List.ne_nil_of_mem (a := md)
    rw [shared_bdays, List.mem_filter]
    refine ⟨?_, decide_eq_true (by omega)⟩
    rw [List.mem_dedup, List.mem_filterMap]
    have hpos : 0 < (squad.filter (fun r => r.birthdayMD == some md)).length := by
      rw [countMD] at hmd
      omega
    obtain ⟨r, hr⟩ := List.exists_mem_of_length_pos hpos
    have hrm := List.mem_filter.mp hr
    exact ⟨r, hrm.1, eq_of_beq hrm.2⟩

/-- Two members of one squad sharing the birthday key `05-12`. -/
def pairRows : List Row :=
  [{ srcPage := 1, num := some 1, birthdayMD := some "05-12", name := "a" },
   { srcPage := 1, num := some 2, birthdayMD := some "05-12", name := "b" }]

/-- Witness for C3: a key reported as shared is carried by at least two
members with a parsed birthday. -/
theorem unparseable_birthdays_excluded_witness :
    2 ≤ countMD pairRows "05-12" :=
  (unparseable_birthdays_excluded pairRows [] (fun _ => none)).2.2.1 "05-12" (by decide)

end BirthdayParadox
